import Mathlib

/-!
# Verification of the capture-thread context-propagation core

Shallow embedding of the core of `capture_thread` (files
`include/thread-capture.h`, `include/thread-crosser.h`, `src/thread-crosser.cc`).

The C++ state that matters is entirely thread-local:
* per type `Type`, a thread-local cell `ThreadCapture<Type>::current_`
  (a `Type*`, possibly null), read by `GetCurrent` and written by `SetCurrent`;
* a thread-local `ThreadCrosser* ThreadCrosser::current_`, the head of an
  intrusive newest-first chain of `AutoThreadCrosser` nodes.

We model a thread's state as a function from type identifiers to optional
instance identifiers (the per-type slots; `none` is the null pointer) together
with the crosser chain as a list of nodes, head (newest) first.  An
`AutoThreadCrosser` node contributes its type and the instance pointer it
captures (`capture_to_.current_`); the parent link of `cross_with_` is the tail
of the list.  Instance pointers are `Option Nat` with `none` for null.

The cross-thread reconstruction (`AutoThreadCrosser::FindTopAndCall` /
`ReconstructContextAndCall`) is embedded as a function that additionally
emits the sequence of mutations it performs on the invoking thread's state
(`Event` trace), so that ordering claims are directly statable.
-/

set_option autoImplicit false

namespace CaptureThread

/-- A node of the thread-local `ThreadCrosser` chain: one `AutoThreadCrosser`,
reduced to the data used when crossing threads — the `ThreadCapture` type it
belongs to (`ty`) and the instance pointer it captures
(`capture_to_.current_`, `none` for null). -/
structure Node where
  ty : Nat
  capture : Option Nat
  deriving DecidableEq, Repr

/-- The thread-local state of one thread: the per-type capture slots
(`ThreadCapture<Type>::current_` for every `Type`) and the crosser chain
(`ThreadCrosser::current_` with its `Parent()` links), newest first;
`[]` is the null chain head. -/
@[ext]
structure ThreadState where
  slots : Nat → Option Nat
  crosser : List Node

/-- `ThreadCapture<Type>::GetCurrent()` for the slot of type `ty`. -/
def getCurrent (s : ThreadState) (ty : Nat) : Option Nat :=
  s.slots ty

/-- `ThreadCapture<Type>::SetCurrent(value)`: update the slot of type `ty`. -/
def setCurrent (s : ThreadState) (ty : Nat) (v : Option Nat) : ThreadState :=
  { s with slots := fun t => if t = ty then v else s.slots t }

/-- The fields of a live `ScopedCapture` guard: the type it manages, the slot
value it saved (`previous_`) and the instance it installed (`current_`). -/
structure ScopedCapture where
  ty : Nat
  previous : Option Nat
  current : Option Nat
  deriving DecidableEq, Repr

/-- `ScopedCapture::ScopedCapture(capture)`: record the previous slot value
(`previous_ = GetCurrent()`), install `capture` via `SetCurrent`, and return
the guard together with the new state. -/
def scopedCaptureEnter (ty : Nat) (capture : Option Nat) (s : ThreadState) :
    ScopedCapture × ThreadState :=
  (⟨ty, getCurrent s ty, capture⟩, setCurrent s ty capture)

/-- `ScopedCapture::~ScopedCapture()`: `SetCurrent(Previous())`. -/
def scopedCaptureExit (g : ScopedCapture) (s : ThreadState) : ThreadState :=
  setCurrent s g.ty g.previous

/-- `ThreadBridge::ThreadBridge()`: snapshot `capture_ = GetCurrent()` of type
`ty`'s slot in the constructing thread. -/
def threadBridge (s : ThreadState) (ty : Nat) : Option Nat :=
  getCurrent s ty

/-- A live `CrossThreads` guard: the type and the saved slot value of the
installing thread (`previous_`). -/
structure CrossThreads where
  ty : Nat
  previous : Option Nat
  deriving DecidableEq, Repr

/-- `CrossThreads::CrossThreads(bridge)`: record the installing thread's slot
(`previous_ = GetCurrent()`) and install the bridged value
(`SetCurrent(bridge.capture_)`). -/
def crossThreadsEnter (ty : Nat) (bridged : Option Nat) (s : ThreadState) :
    CrossThreads × ThreadState :=
  (⟨ty, getCurrent s ty⟩, setCurrent s ty bridged)

/-- `CrossThreads::~CrossThreads()`: restore the installing thread's slot
(`SetCurrent(previous_)`). -/
def crossThreadsExit (g : CrossThreads) (s : ThreadState) : ThreadState :=
  setCurrent s g.ty g.previous

/-- A `std::function` body: a state transformer on the invoking thread's
thread-local state, returning an observation of type `α`. -/
def Call (α : Type) : Type :=
  ThreadState → ThreadState × α

/-- Mutations the reconstruction algorithm performs on the invoking thread's
thread-local state, in program order: a per-type slot write
(`ThreadCapture<Type>::SetCurrent`), a crosser-chain-head write
(`ThreadCrosser::SetCurrent`), or the invocation of the user callback. -/
inductive Event where
  | setSlot (ty : Nat) (v : Option Nat)
  | setCrosser (c : List Node)
  | callEvent
  deriving DecidableEq, Repr

/-- `AutoThreadCrosser::ReconstructContextAndCall(call, reverse_scope)`.
The `reverse_scope` linked list (oldest node first, then successively newer
nodes up to the captured head) is the argument pair `n :: rs`.  Each level
constructs `CrossThreads capture(capture_to_)` (recording the invoking
thread's slot and installing the node's captured instance), recurses into the
next newer node, and on unwind the `CrossThreads` destructor restores the
recorded slot.  At the head (`reverse_scope.previous == nullptr`) a
`DelegateCrosser` installs the captured chain (`cross_with_.current_` and its
parents, i.e. `chain`) as the invoking thread's crosser head, runs `call`,
and its destructor restores the previous head.  The third component is the
emitted trace of state mutations. -/
def reconstructContextAndCall {α : Type} (call : Call α) (chain : List Node) :
    Node → List Node → ThreadState → ThreadState × α × List Event
  | n, next :: rest, s =>
      let previous := getCurrent s n.ty
      let s1 := setCurrent s n.ty n.capture
      let r := reconstructContextAndCall call chain next rest s1
      (setCurrent r.1 n.ty previous, r.2.1,
        Event.setSlot n.ty n.capture :: (r.2.2 ++ [Event.setSlot n.ty previous]))
  | n, [], s =>
      let previous := getCurrent s n.ty
      let s1 := setCurrent s n.ty n.capture
      let parent := s1.crosser
      let s2 := { s1 with crosser := chain }
      let r := call s2
      let s3 := { r.1 with crosser := parent }
      (setCurrent s3 n.ty previous, r.2,
        [Event.setSlot n.ty n.capture, Event.setCrosser chain, Event.callEvent,
         Event.setCrosser parent, Event.setSlot n.ty previous])

/-- `AutoThreadCrosser::FindTopAndCall(call, reverse_scope)`: walk the
`cross_with_.Parent()` links from the captured head to the oldest node,
accumulating the `reverse_scope` list (`n` is the current node, `ps` its
parents, `acc` the already-visited newer nodes), then hand over to
`ReconstructContextAndCall` at the oldest node. -/
def findTopAndCall {α : Type} (call : Call α) (chain : List Node) :
    Node → List Node → List Node → ThreadState → ThreadState × α × List Event
  | n, [], acc, s => reconstructContextAndCall call chain n acc s
  | n, p :: ps, acc, s => findTopAndCall call chain p ps (n :: acc) s

/-- `ThreadCrosser::CallInFullContext(call)`: `FindTopAndCall(call, {this,
nullptr})` on the captured chain head `n` (with parents `ps`). -/
def callInFullContext {α : Type} (call : Call α) (n : Node) (ps : List Node)
    (s : ThreadState) : ThreadState × α × List Event :=
  findTopAndCall call (n :: ps) n ps [] s

/-- The callable produced by `ThreadCrosser::WrapFunction` when the calling
thread's crosser chain head is non-null: it carries the captured chain
(`n :: ps`) and, on invocation, runs `f` through `CallInFullContext`
(via `AutoCall<...>::Execute`). -/
def wrapped {α : Type} (n : Node) (ps : List Node) (f : Call α) : Call α :=
  fun s => ((callInFullContext f n ps s).1, (callInFullContext f n ps s).2.1)

/-- `ThreadCrosser::WrapFunction(function)` (and `WrapCall`, which forwards to
it): `current = GetCurrent()`; if `function && current`, return the
context-reconstructing lambda, else return `function` unchanged.  A
`std::function` is modelled as `Option (Call α)` with `none` for the empty
callable; `current` is the calling thread's chain, `[]` for null. -/
def wrapFunction {α : Type} (current : List Node) (function : Option (Call α)) :
    Option (Call α) :=
  match function, current with
  | some f, n :: ps => some (wrapped n ps f)
  | _, _ => function

/-- Invoke an optional callable as C++ does a possibly-empty `std::function`
guarded by `if (call) call();`: the empty callable does nothing. -/
def runOptCall {α : Type} (call : Option (Call α)) (s : ThreadState) :
    ThreadState × Option α :=
  match call with
  | some f => ((f s).1, some ((f s).2))
  | none => (s, none)

/-! ### Characterization helpers (oldest-first node lists)

`installSlots l g` is the slot function after re-entering every capture of
the oldest-first list `l` starting from slots `g`; `restoreSlots l g h` is
the slot function after the matching teardown runs over slots `h` (where `g`
was the slot function before installation); `installTrace`/`undoTrace` are
the corresponding event sequences, both in installation order. -/

/-- Slot function after installing the captures of `l` (oldest first) over
`g`, newest written last. -/
def installSlots : List Node → (Nat → Option Nat) → Nat → Option Nat
  | [], g => g
  | n :: rest, g => installSlots rest (fun t => if t = n.ty then n.capture else g t)

/-- Slot function after the teardown matching `installSlots l g` runs over a
slot function `h`: the restore of the oldest node runs last. -/
def restoreSlots : List Node → (Nat → Option Nat) → (Nat → Option Nat) → Nat → Option Nat
  | [], _, h => h
  | n :: rest, g, h => fun t =>
      if t = n.ty then g n.ty
      else restoreSlots rest (fun u => if u = n.ty then n.capture else g u) h t

/-- Slot-write events of the installation phase, in installation order
(oldest node first). -/
def installTrace : List Node → List Event
  | [] => []
  | n :: rest => Event.setSlot n.ty n.capture :: installTrace rest

/-- Slot-restore events listed in *installation* order (oldest node's restore
first); the actual teardown emits exactly their reversal. -/
def undoTrace : List Node → (Nat → Option Nat) → List Event
  | [], _ => []
  | n :: rest, g =>
      Event.setSlot n.ty (g n.ty) ::
        undoTrace rest (fun t => if t = n.ty then n.capture else g t)

/-! ### Global override (`src/thread-crosser.cc`)

`global_override` is a process-wide `ThreadCrosser*`, modelled as the chain
it points to (`[]` for null).  `SetGlobalOverride`'s constructor runs
`assert(global_override == nullptr); global_override = current_;` and its
destructor `assert(global_override == current_); global_override = nullptr;`.
A firing assertion is modelled as `none`. -/

/-- `SetGlobalOverride::SetGlobalOverride()`: `current_ = GetCurrent()` is the
argument `current`; asserts the global override is null, then installs. -/
def setGlobalOverrideCtor (current glob : List Node) : Option (List Node) :=
  if glob = [] then some current else none

/-- `SetGlobalOverride::~SetGlobalOverride()`: asserts the global override is
still this instance's `current_`, then clears it. -/
def setGlobalOverrideDtor (current glob : List Node) : Option (List Node) :=
  if glob = current then some [] else none

/-- Run a strictly-one-at-a-time sequence of `SetGlobalOverride` lifetimes:
each listed chain is installed by a constructor and released by the matching
destructor before the next instance is created.  `none` means some debug
assertion fired. -/
def runOverrideSeq : List (List Node) → List Node → Option (List Node)
  | [], glob => some glob
  | c :: cs, glob =>
      match setGlobalOverrideCtor c glob with
      | none => none
      | some g1 =>
          match setGlobalOverrideDtor c g1 with
          | none => none
          | some g2 => runOverrideSeq cs g2

/-- Modelled from the spec: `ThreadCrosser::WrapWithContext` is declared and
called in `src/thread-crosser.cc` but its definition (in the
`AutoThreadCrosser` of a later revision of `thread-capture.h`) is not under
`src/`.  Per the spec's reconstruction algorithm, it wraps the callable so
that invocation re-enters this node's per-type scoped capture (a
`CrossThreads` install/restore pair) around it; an empty callable is returned
unchanged. -/
def wrapWithContext {α : Type} (n : Node) (f : Option (Call α)) : Option (Call α) :=
  match f with
  | none => none
  | some g => some (fun s =>
      let previous := getCurrent s n.ty
      let s1 := setCurrent s n.ty n.capture
      let r := g s1
      (setCurrent r.1 n.ty previous, r.2))

/-- `ThreadCrosser::WrapCallRec(call, current)`: if `current` is non-null,
recurse on `current->Parent()` with `current->WrapWithContext(call)`;
otherwise return `call` unchanged. -/
def wrapCallRec {α : Type} (call : Option (Call α)) : List Node → Option (Call α)
  | [] => call
  | n :: ps => wrapCallRec (wrapWithContext n call) ps

/-- `ThreadCrosser::UseGlobalOverride::Call(call)`: `call =
WrapCallRec(std::move(call), current_); if (call) call();` where `current` is
the chain captured from `global_override` at handle construction
(`[]` for null). -/
def useGlobalOverrideCall {α : Type} (current : List Node) (call : Option (Call α))
    (s : ThreadState) : ThreadState × Option α :=
  runOptCall (wrapCallRec call current) s

/-! ## Basic slot lemmas -/

@[simp]
theorem getCurrent_setCurrent_same (s : ThreadState) (ty : Nat) (v : Option Nat) :
    getCurrent (setCurrent s ty v) ty = v := by
  simp [getCurrent, setCurrent]

@[simp]
theorem getCurrent_setCurrent_other (s : ThreadState) (ty ty' : Nat) (v : Option Nat)
    (h : ty' ≠ ty) : getCurrent (setCurrent s ty v) ty' = getCurrent s ty' := by
  simp [getCurrent, setCurrent, h]

theorem setCurrent_setCurrent (s : ThreadState) (ty : Nat) (v w : Option Nat) :
    setCurrent (setCurrent s ty v) ty w = setCurrent s ty w := by
  simp only [setCurrent]
  congr 1
  funext t
  by_cases h : t = ty <;> simp [h]

theorem setCurrent_getCurrent (s : ThreadState) (ty : Nat) :
    setCurrent s ty (getCurrent s ty) = s := by
  simp only [setCurrent, getCurrent]
  cases s with
  | mk slots crosser =>
    congr 1
    funext t
    by_cases h : t = ty <;> simp [h]

theorem scopedCaptureExit_enter (ty : Nat) (x : Option Nat) (s : ThreadState) :
    scopedCaptureExit (scopedCaptureEnter ty x s).1 (scopedCaptureEnter ty x s).2 = s := by
  simp only [scopedCaptureEnter, scopedCaptureExit]
  rw [setCurrent_setCurrent, setCurrent_getCurrent]

theorem crossThreadsExit_enter (ty : Nat) (b : Option Nat) (s : ThreadState) :
    crossThreadsExit (crossThreadsEnter ty b s).1 (crossThreadsEnter ty b s).2 = s := by
  simp only [crossThreadsEnter, crossThreadsExit]
  rw [setCurrent_setCurrent, setCurrent_getCurrent]

/-! ## Characterization of the reconstruction algorithm -/

theorem installSlots_find? (l : List Node) (g : Nat → Option Nat) (ty : Nat) :
    installSlots l g ty =
      match l.reverse.find? (fun m => m.ty == ty) with
      | some m => m.capture
      | none => g ty := by
  induction l generalizing g with
  | nil => rfl
  | cons n rest ih =>
    simp only [installSlots, List.reverse_cons, List.find?_append]
    rw [ih]
    cases h : rest.reverse.find? (fun m => m.ty == ty) with
    | some m => simp [h]
    | none =>
      by_cases hty : n.ty = ty
      · simp [h, hty]
      · simp [h, hty, Ne.symm hty]

theorem restoreSlots_mem (l : List Node) (g h : Nat → Option Nat) (ty : Nat) :
    restoreSlots l g h ty = if ty ∈ l.map Node.ty then g ty else h ty := by
  induction l generalizing g with
  | nil => simp [restoreSlots]
  | cons n rest ih =>
    simp only [restoreSlots, List.map_cons, List.mem_cons]
    by_cases hty : ty = n.ty
    · simp [hty]
    · rw [if_neg hty, ih]
      by_cases hm : ty ∈ rest.map Node.ty
      · simp [hm, hty]
      · simp [hm, hty]

theorem reconstructContextAndCall_spec {α : Type} (call : Call α) (chain : List Node)
    (rs : List Node) :
    ∀ (n : Node) (s : ThreadState),
    reconstructContextAndCall call chain n rs s =
      (⟨restoreSlots (n :: rs) s.slots
          (call ⟨installSlots (n :: rs) s.slots, chain⟩).1.slots, s.crosser⟩,
       (call ⟨installSlots (n :: rs) s.slots, chain⟩).2,
       installTrace (n :: rs) ++
         Event.setCrosser chain :: Event.callEvent :: Event.setCrosser s.crosser ::
           (undoTrace (n :: rs) s.slots).reverse) := by
  induction rs with
  | nil => intro n s; rfl
  | cons next rest ih =>
    intro n s
    simp only [reconstructContextAndCall]
    rw [ih next (setCurrent s n.ty n.capture)]
    simp only [installSlots, restoreSlots, installTrace, undoTrace, getCurrent, setCurrent,
      List.reverse_cons, List.append_assoc, List.cons_append, List.nil_append]

theorem findTopAndCall_eq {α : Type} (call : Call α) (chain : List Node) :
    ∀ (ps : List Node) (n : Node) (acc : List Node) (m : Node) (ms : List Node)
      (s : ThreadState), ps.reverse ++ (n :: acc) = m :: ms →
    findTopAndCall call chain n ps acc s = reconstructContextAndCall call chain m ms s := by
  intro ps
  induction ps with
  | nil =>
    intro n acc m ms s h
    simp only [List.reverse_nil, List.nil_append] at h
    cases h
    rfl
  | cons p ps ih =>
    intro n acc m ms s h
    simp only [findTopAndCall]
    exact ih p (n :: acc) m ms s (by simpa [List.append_assoc] using h)

theorem callInFullContext_spec {α : Type} (call : Call α) (n : Node) (ps : List Node)
    (s : ThreadState) :
    callInFullContext call n ps s =
      (⟨restoreSlots ((n :: ps).reverse) s.slots
          (call ⟨installSlots ((n :: ps).reverse) s.slots, n :: ps⟩).1.slots, s.crosser⟩,
       (call ⟨installSlots ((n :: ps).reverse) s.slots, n :: ps⟩).2,
       installTrace ((n :: ps).reverse) ++
         Event.setCrosser (n :: ps) :: Event.callEvent :: Event.setCrosser s.crosser ::
           (undoTrace ((n :: ps).reverse) s.slots).reverse) := by
  obtain ⟨m, ms, hl⟩ : ∃ m ms, (n :: ps).reverse = m :: ms := by
    cases h : (n :: ps).reverse with
    | nil => exact absurd h (by simp)
    | cons a as => exact ⟨a, as, rfl⟩
  simp only [callInFullContext]
  rw [findTopAndCall_eq call (n :: ps) ps n [] m ms s (by simpa using hl)]
  rw [reconstructContextAndCall_spec call (n :: ps) ms m s]
  rw [hl]

theorem installTrace_map (l : List Node) :
    installTrace l = l.map (fun m => Event.setSlot m.ty m.capture) := by
  induction l with
  | nil => rfl
  | cons n rest ih => simp [installTrace, ih]

theorem runOverrideSeq_nil_start (cs : List (List Node)) :
    runOverrideSeq cs [] = some [] := by
  induction cs with
  | nil => rfl
  | cons c cs ih =>
    simp [runOverrideSeq, setGlobalOverrideCtor, setGlobalOverrideDtor, ih]

/-! ## Claim theorems -/

/-- C1: constructing `ScopedCapture(x)` makes `GetCurrent()` return `x` in the
constructing thread, and destroying the guard restores the state (hence
`GetCurrent()`) to exactly what it was immediately before construction;
consequently, for guards `a` inside `b` inside `c` on the same type, the
innermost installed instance is visible and closing each scope re-exposes the
previously shadowed instance in exact reverse order of creation. -/
theorem scopedCapture_install_restore (s : ThreadState) (ty : Nat)
    (xa xb xc : Option Nat) :
    (getCurrent (scopedCaptureEnter ty xa s).2 ty = xa ∧
      scopedCaptureExit (scopedCaptureEnter ty xa s).1 (scopedCaptureEnter ty xa s).2 = s) ∧
    (let s1 := (scopedCaptureEnter ty xc s).2
     let s2 := (scopedCaptureEnter ty xb s1).2
     let s3 := (scopedCaptureEnter ty xa s2).2
     getCurrent s3 ty = xa ∧
     scopedCaptureExit (scopedCaptureEnter ty xa s2).1 s3 = s2 ∧
     getCurrent s2 ty = xb ∧
     scopedCaptureExit (scopedCaptureEnter ty xb s1).1 s2 = s1 ∧
     getCurrent s1 ty = xc ∧
     scopedCaptureExit (scopedCaptureEnter ty xc s).1 s1 = s) := by
  refine ⟨⟨getCurrent_setCurrent_same s ty xa, scopedCaptureExit_enter ty xa s⟩,
    getCurrent_setCurrent_same _ ty xa, scopedCaptureExit_enter ty xa _,
    getCurrent_setCurrent_same _ ty xb, scopedCaptureExit_enter ty xb _,
    getCurrent_setCurrent_same _ ty xc, scopedCaptureExit_enter ty xc s⟩

/-- C2: invoking a callable wrapped over the crosser chain `n :: ps` (head
first; `FindTopAndCall` walks the parent links from the head `n` down to the
oldest node, which is why the emitted installs range over `(n :: ps).reverse`)
re-enters each node's per-type capture in oldest-to-head order, re-installs
the captured head chain as the invoking thread's chain head immediately before
running the user function, and afterwards tears down every capture installed
during reconstruction in exact reverse order of installation (the
crosser-head restore first, then the slot restores, i.e. the reversal of the
per-node undo writes listed in installation order). -/
theorem wrapped_invocation_order {α : Type} (call : Call α) (n : Node) (ps : List Node)
    (s : ThreadState) :
    (callInFullContext call n ps s).2.2 =
      installTrace ((n :: ps).reverse) ++
        Event.setCrosser (n :: ps) :: Event.callEvent :: Event.setCrosser s.crosser ::
          (undoTrace ((n :: ps).reverse) s.slots).reverse ∧
    installTrace ((n :: ps).reverse) =
      ((n :: ps).reverse).map (fun m => Event.setSlot m.ty m.capture) := by
  constructor
  · rw [callInFullContext_spec]
  · exact installTrace_map _

/-- C3: `WrapFunction` (and `WrapCall`, which forwards to it) returns its
argument unchanged exactly when the calling thread's crosser chain is null
(pass-through) or when the argument callable is empty (an empty callable is
returned); for a non-empty callable with an active chain it returns the new
context-reconstructing callable `wrapped`. -/
theorem wrapFunction_passthrough {α : Type} (current : List Node)
    (function : Option (Call α)) :
    (current = [] → wrapFunction current function = function) ∧
    (function = none → wrapFunction current function = none) ∧
    (∀ (f : Call α) (n : Node) (ps : List Node),
      function = some f → current = n :: ps →
      wrapFunction current function = some (wrapped n ps f)) := by
  refine ⟨?_, ?_, ?_⟩
  · rintro rfl
    cases function <;> rfl
  · rintro rfl
    cases current <;> rfl
  · rintro f m ms rfl rfl
    rfl

/-- Witness for `wrapFunction_passthrough` at concrete inputs: an inactive
chain passes a callable through unchanged, and an empty callable stays empty
under an active chain. -/
theorem wrapFunction_passthrough_witness :
    wrapFunction ([] : List Node) (some (fun (s : ThreadState) => (s, (0 : Nat)))) =
      some (fun (s : ThreadState) => (s, (0 : Nat))) ∧
    wrapFunction ([⟨0, some 1⟩] : List Node) (none : Option (Call Nat)) = none :=
  ⟨(wrapFunction_passthrough [] (some (fun s => (s, 0)))).1 rfl,
   (wrapFunction_passthrough [⟨0, some 1⟩] none).2.1 rfl⟩

/-- C8: over the process-wide `global_override` cell, `SetGlobalOverride`'s
constructor asserts that no override is installed (`global_override ==
nullptr`, i.e. the null chain) before installing its captured head, and its
destructor asserts the installed override is still its own before clearing
it; under strictly one-at-a-time creation and destruction, starting from no
override, no assertion ever fires. -/
theorem setGlobalOverride_single (cs : List (List Node)) (c g : List Node) :
    (g ≠ [] → setGlobalOverrideCtor c g = none) ∧
    setGlobalOverrideCtor c [] = some c ∧
    (g ≠ c → setGlobalOverrideDtor c g = none) ∧
    setGlobalOverrideDtor c c = some [] ∧
    runOverrideSeq cs [] = some [] := by
  refine ⟨?_, ?_, ?_, ?_, runOverrideSeq_nil_start cs⟩
  · intro h
    simp [setGlobalOverrideCtor, h]
  · simp [setGlobalOverrideCtor]
  · intro h
    simp [setGlobalOverrideDtor, h]
  · simp [setGlobalOverrideDtor]

/-- Witness for `setGlobalOverride_single`: with an override already
installed, a second constructor's assertion fires; a destructor seeing a
foreign override fires; and a one-at-a-time sequence of two overrides runs
with no assertion firing. -/
theorem setGlobalOverride_single_witness :
    setGlobalOverrideCtor [⟨0, some 1⟩] [⟨1, none⟩] = none ∧
    setGlobalOverrideDtor [⟨0, some 1⟩] [⟨1, none⟩] = none ∧
    runOverrideSeq [[⟨0, some 1⟩], [⟨2, some 3⟩]] [] = some [] :=
  ⟨(setGlobalOverride_single [] [⟨0, some 1⟩] [⟨1, none⟩]).1 (by decide),
   (setGlobalOverride_single [] [⟨0, some 1⟩] [⟨1, none⟩]).2.2.1 (by decide),
   (setGlobalOverride_single [[⟨0, some 1⟩], [⟨2, some 3⟩]] [] []).2.2.2.2⟩

/-- C9: `ThreadBridge` records the constructing thread's slot value at that
exact moment; `CrossThreads(bridge)` in any thread (state `u`) installs
exactly the recorded value — so if the originating thread's slot has since
changed (state `s2`), the installed value is still the recorded one, not the
new one — and the `CrossThreads` destructor restores the installing thread's
state exactly.  The recorded value may be the empty slot (`none`). -/
theorem threadBridge_snapshot (s u s2 : ThreadState) (ty : Nat) :
    threadBridge s ty = getCurrent s ty ∧
    getCurrent (crossThreadsEnter ty (threadBridge s ty) u).2 ty = threadBridge s ty ∧
    (getCurrent s2 ty ≠ threadBridge s ty →
      getCurrent (crossThreadsEnter ty (threadBridge s ty) u).2 ty ≠ getCurrent s2 ty) ∧
    crossThreadsExit (crossThreadsEnter ty (threadBridge s ty) u).1
      (crossThreadsEnter ty (threadBridge s ty) u).2 = u := by
  refine ⟨rfl, getCurrent_setCurrent_same u ty _, ?_, crossThreadsExit_enter ty _ u⟩
  intro h
  simp only [crossThreadsEnter]
  rw [getCurrent_setCurrent_same]
  exact fun hc => h hc.symm

/-- Witness for `threadBridge_snapshot`: a bridge recording instance `5`
still installs `5` after the originating slot moved on to `7`. -/
theorem threadBridge_snapshot_witness :
    getCurrent ⟨fun _ => some 7, []⟩ 0 ≠
      threadBridge ⟨fun _ => some 5, []⟩ 0 ∧
    getCurrent (crossThreadsEnter 0 (threadBridge ⟨fun _ => some 5, []⟩ 0)
        ⟨fun _ => none, []⟩).2 0 ≠ getCurrent ⟨fun _ => some 7, []⟩ 0 :=
  ⟨by decide,
   (threadBridge_snapshot ⟨fun _ => some 5, []⟩ ⟨fun _ => none, []⟩
     ⟨fun _ => some 7, []⟩ 0).2.2.1 (by decide)⟩

/-- C10: `UseGlobalOverride::Call` with a null captured chain head (no global
override active at handle construction): a non-empty callable is invoked
directly on the unchanged thread state with no context reconstruction, and an
empty callable does nothing at all. -/
theorem useGlobalOverride_no_context {α : Type} (f : Call α) (s : ThreadState) :
    useGlobalOverrideCall [] (some f) s = ((f s).1, some ((f s).2)) ∧
    useGlobalOverrideCall ([] : List Node) (none : Option (Call α)) s = (s, none) :=
  ⟨rfl, rfl⟩

/-- What a probe callback reading type `ty`'s slot observes inside a wrapped
invocation: the capture of the newest chain node of that type, or the
invoking thread's own slot value when the chain carries no node of `ty`. -/
theorem wrapped_probe_eq (n : Node) (ps : List Node) (ty : Nat) (s : ThreadState) :
    (wrapped n ps (fun t => (t, getCurrent t ty)) s).2 =
      match (n :: ps).find? (fun k => k.ty == ty) with
      | some m => m.capture
      | none => getCurrent s ty := by
  simp only [wrapped, callInFullContext_spec, getCurrent]
  rw [installSlots_find?, List.reverse_reverse]

/-- C4: when the same type has several nested live registrations at wrap time,
only the innermost one (the first node of that type in the head-first chain)
is observable inside the wrapped callable on the invoking thread; shadowed
older registrations of the same type do not cross. -/
theorem innermost_only_crosses (n : Node) (ps : List Node) (s : ThreadState) (ty : Nat)
    (m : Node) (hm : (n :: ps).find? (fun k => k.ty == ty) = some m) :
    (wrapped n ps (fun t => (t, getCurrent t ty)) s).2 = m.capture := by
  rw [wrapped_probe_eq, hm]

/-- Witness for `innermost_only_crosses`: with two nested registrations of
type `0` (older instance `1`, innermost instance `2`), the callback observes
instance `2`. -/
theorem innermost_only_crosses_witness :
    (([⟨0, some 2⟩, ⟨0, some 1⟩] : List Node).find? (fun k => k.ty == 0) =
      some ⟨0, some 2⟩) ∧
    (wrapped ⟨0, some 2⟩ [⟨0, some 1⟩] (fun t => (t, getCurrent t 0))
      ⟨fun _ => none, []⟩).2 = some 2 :=
  ⟨by decide,
   innermost_only_crosses ⟨0, some 2⟩ [⟨0, some 1⟩] ⟨fun _ => none, []⟩ 0
     ⟨0, some 2⟩ (by decide)⟩

/-- C6: wrapping is never lazy — the chain is captured at wrap time.  If the
wrap-time chain's innermost node of type `ty` captured instance `A`, then
every invocation of the wrapped callable observes `A`, even from a state in
which a different instance `B` has since become current for `ty`. -/
theorem wrap_captures_at_wrap_time (n : Node) (ps : List Node) (ty A B : Nat)
    (m : Node) (s : ThreadState)
    (hm : (n :: ps).find? (fun k => k.ty == ty) = some m)
    (hA : m.capture = some A)
    (_hB : getCurrent s ty = some B)
    (hAB : B ≠ A) :
    ∃ g, wrapFunction (n :: ps) (some (fun t => (t, getCurrent t ty))) = some g ∧
      (g s).2 = some A ∧ (g s).2 ≠ some B := by
  refine ⟨wrapped n ps (fun t => (t, getCurrent t ty)), rfl, ?_, ?_⟩
  · rw [wrapped_probe_eq, hm]
    exact hA
  · rw [wrapped_probe_eq, hm]
    intro hc
    have hc' : m.capture = some B := hc
    rw [hA] at hc'
    exact hAB (Option.some_inj.mp hc').symm

/-- Witness for `wrap_captures_at_wrap_time`: a callable wrapped while
instance `1` of type `0` was innermost still observes `1` when invoked from a
state whose current instance of type `0` is `9`. -/
theorem wrap_captures_at_wrap_time_witness :
    (([⟨0, some 1⟩] : List Node).find? (fun k => k.ty == 0) = some ⟨0, some 1⟩) ∧
    (Node.capture ⟨0, some 1⟩ = some 1) ∧
    getCurrent ⟨fun _ => some 9, []⟩ 0 = some 9 ∧ (9 : Nat) ≠ 1 ∧
    (∃ g, wrapFunction ([⟨0, some 1⟩] : List Node)
        (some (fun t => (t, getCurrent t 0))) = some g ∧
      (g ⟨fun _ => some 9, []⟩).2 = some 1 ∧ (g ⟨fun _ => some 9, []⟩).2 ≠ some 9) :=
  ⟨by decide, by decide, by decide, by decide,
   wrap_captures_at_wrap_time ⟨0, some 1⟩ [] 0 1 9 ⟨0, some 1⟩ ⟨fun _ => some 9, []⟩
     (by decide) (by decide) (by decide) (by decide)⟩

/-- Re-running the installation over already-installed slots changes
nothing. -/
theorem installSlots_installSlots (l : List Node) (g : Nat → Option Nat) :
    installSlots l (installSlots l g) = installSlots l g := by
  funext t
  rw [installSlots_find? l (installSlots l g) t]
  cases h : l.reverse.find? (fun m => m.ty == t) with
  | some m => rw [installSlots_find? l g t, h]
  | none => rfl

/-- An inner teardown over the same chain is absorbed by the outer one. -/
theorem restoreSlots_restoreSlots (l : List Node) (g g' h : Nat → Option Nat) :
    restoreSlots l g (restoreSlots l g' h) = restoreSlots l g h := by
  funext t
  simp only [restoreSlots_mem]
  by_cases hm : t ∈ l.map Node.ty <;> simp [hm]

/-- Invoking a doubly wrapped callable behaves exactly like invoking the
singly wrapped one, on every state. -/
theorem wrapped_wrapped {α : Type} (n : Node) (ps : List Node) (f : Call α)
    (s : ThreadState) :
    wrapped n ps (wrapped n ps f) s = wrapped n ps f s := by
  simp only [wrapped, callInFullContext_spec, installSlots_installSlots,
    restoreSlots_restoreSlots]

/-- C5: wrapping is behaviorally idempotent — for every callable (including
the empty one) and every wrap-time chain, each invocation of
`WrapFunction(WrapFunction(fn))` from any state has the same result
(final thread state and observation) as an invocation of
`WrapFunction(fn)`. -/
theorem wrapFunction_idempotent {α : Type} (current : List Node)
    (function : Option (Call α)) (s : ThreadState) :
    runOptCall (wrapFunction current (wrapFunction current function)) s =
      runOptCall (wrapFunction current function) s := by
  cases function with
  | none => cases current <;> rfl
  | some f =>
    cases current with
    | nil => rfl
    | cons n ps =>
      show runOptCall (some (wrapped n ps (wrapped n ps f))) s =
        runOptCall (some (wrapped n ps f)) s
      simp only [runOptCall, wrapped_wrapped]

/-- C7: invoking a wrapped callable leaves the invoking thread's state
restored to its exact pre-invocation value (in particular an all-empty thread
is empty again afterwards), while the callback itself runs on the state whose
slot for each chain type holds the innermost captured instance of that type,
whose other slots are the invoking thread's own, and whose crosser head is
the captured chain.  The hypothesis says the callback is scope-disciplined:
it leaves the thread state as it found it, as every balanced C++ callback
does. -/
theorem invocation_frame {α : Type} (f : Call α) (n : Node) (ps : List Node)
    (s : ThreadState) (hf : ∀ t, (f t).1 = t) :
    wrapped n ps f s =
      (s, (f ⟨fun ty =>
            match (n :: ps).find? (fun k => k.ty == ty) with
            | some m => m.capture
            | none => getCurrent s ty,
          n :: ps⟩).2) := by
  have hS : (⟨installSlots ((n :: ps).reverse) s.slots, n :: ps⟩ : ThreadState) =
      ⟨fun ty => match (n :: ps).find? (fun k => k.ty == ty) with
                 | some m => m.capture
                 | none => getCurrent s ty, n :: ps⟩ := by
    congr 1
    funext t
    rw [installSlots_find?, List.reverse_reverse]
    rfl
  simp only [wrapped, callInFullContext_spec]
  rw [hS, hf]
  have hR : restoreSlots ((n :: ps).reverse) s.slots
      (fun ty => match (n :: ps).find? (fun k => k.ty == ty) with
                 | some m => m.capture
                 | none => getCurrent s ty) = s.slots := by
    funext t
    rw [restoreSlots_mem]
    by_cases hm : t ∈ ((n :: ps).reverse).map Node.ty
    · rw [if_pos hm]
    · rw [if_neg hm]
      have hfind : (n :: ps).find? (fun k => k.ty == t) = none := by
        rw [List.find?_eq_none]
        intro x hx
        simp only [beq_iff_eq]
        intro hxt
        exact hm (by
          rw [List.mem_map]
          exact ⟨x, List.mem_reverse.mpr hx, hxt⟩)
      simp [hfind, getCurrent]
  rw [hR]

/-- Witness for `invocation_frame`: a read-only probe invoked through a
one-node chain from the empty thread state leaves the thread empty and
observes the captured instance. -/
theorem invocation_frame_witness :
    (∀ t : ThreadState, ((fun u => (u, getCurrent u 0)) t).1 = t) ∧
    wrapped ⟨0, some 4⟩ [] (fun u => (u, getCurrent u 0)) ⟨fun _ => none, []⟩ =
      (⟨fun _ => none, []⟩,
       ((fun u => (u, getCurrent u 0))
          (⟨fun ty =>
              match ([⟨0, some 4⟩] : List Node).find? (fun k => k.ty == ty) with
              | some m => m.capture
              | none => getCurrent ⟨fun _ => none, []⟩ ty,
            [⟨0, some 4⟩]⟩ : ThreadState)).2) :=
  ⟨fun _ => rfl,
   invocation_frame (fun u => (u, getCurrent u 0)) ⟨0, some 4⟩ []
     ⟨fun _ => none, []⟩ (fun _ => rfl)⟩

end CaptureThread
